import Mathlib

/-!
Verification development for the tiling-layout engine
(`src/shell/layout/tiling/mod.rs`).

The Rust module is shallowly embedded: machine integers (`i32`, `usize`)
become `Int`/`Nat` (the operations verified here stay far from the wrap
boundaries), `f64` arithmetic is modelled by exact rational arithmetic with
`f64::round`'s round-half-away-from-zero rule, and the `id_tree` crate's
`Tree` is modelled both as a rose tree (for the geometry solver and the
resize walk, which only need parent/child structure along a path) and as an
id-addressed node store (for the operations whose semantics depend on
`id_tree`'s stable `NodeId`s: `map_to_tree`, `merge_trees`, output
management).
-/

namespace Tiling

/-- `Orientation` from `shell/layout/mod.rs`: the axis a `Group` splits
along. -/
inductive Orientation where
  | horizontal
  | vertical
deriving DecidableEq, Repr

/-- `Rectangle<i32, Logical>` (smithay): location and size, all `i32`. -/
structure Rect where
  x : Int
  y : Int
  w : Int
  h : Int
deriving DecidableEq, Repr

/-- The repeated source pattern
`match orientation { Horizontal => geo.size.h, Vertical => geo.size.w }`:
a rectangle's extent along the orientation axis. -/
def Orientation.length_of (o : Orientation) (geo : Rect) : Int :=
  match o with
  | .horizontal => geo.h
  | .vertical => geo.w

/-- `f64::round` on an exactly-represented value: round half away from
zero. In the sizing arithmetic every rounded quantity is a ratio of `i32`
values, modelled exactly in `ℚ`. -/
def rustRound (q : ℚ) : Int :=
  if 0 ≤ q then ⌊q + 1 / 2⌋ else ⌈q - 1 / 2⌉

/-- `*sizes.last_mut().unwrap() += d` — add `d` to the last element.
On `[]` the source panics; the embedding returns `[]` (all call sites are
guarded by nonemptiness in the theorems below). -/
def addToLast : List Int → Int → List Int
  | [], _ => []
  | [a], d => [a + d]
  | a :: b :: rest, d => a :: addToLast (b :: rest) d

theorem addToLast_sum (l : List Int) (d : Int) (h : l ≠ []) :
    (addToLast l d).sum = l.sum + d := by
  induction l with
  | nil => exact absurd rfl h
  | cons a rest ih =>
    cases rest with
    | nil => simp [addToLast]
    | cons b t =>
      have := ih (by simp)
      simp only [addToLast, List.sum_cons, this]
      ring

theorem addToLast_length (l : List Int) (d : Int) :
    (addToLast l d).length = l.length := by
  induction l with
  | nil => rfl
  | cons a rest ih =>
    cases rest with
    | nil => rfl
    | cons b t => simpa [addToLast] using ih

/-- The node payload `Data` (mod.rs:152-164).  `Group` carries the
orientation, the per-child sizes and the last-known rectangle (the `alive`
liveness token carries no information relevant to these claims and is
omitted).  `Mapped` carries the window (as an abstract identifier), the
window's tiling back-reference `CosmicMapped::tiling_node_id` (stored here
with the leaf, since the model has no separate window objects), and the
last-known rectangle. -/
inductive Data where
  | group (orientation : Orientation) (sizes : List Int) (last_geometry : Rect)
  | mapped (window : Nat) (tiling_node_id : Option Nat) (last_geometry : Rect)
deriving DecidableEq, Repr

/-- `Data::is_group` (mod.rs:182). -/
def Data.is_group : Data → Bool
  | .group _ _ _ => true
  | .mapped _ _ _ => false

/-- `Data::is_mapped(None)` (mod.rs:185-190) — is this a `Mapped` leaf. -/
def Data.is_mapped_leaf : Data → Bool
  | .mapped _ _ _ => true
  | .group _ _ _ => false

/-- `Data::len` (mod.rs:310-315): number of sizes for a group, `1` for a
leaf. -/
def Data.len : Data → Nat
  | .group _ sizes _ => sizes.length
  | .mapped _ _ _ => 1

/-- The sizes of a `Group` (`[]` for a leaf). -/
def Data.sizes_of : Data → List Int
  | .group _ sizes _ => sizes
  | .mapped _ _ _ => []

/-- The last-known rectangle (`Data::geometry`, mod.rs:270-275). -/
def Data.geometry : Data → Rect
  | .group _ _ g => g
  | .mapped _ _ g => g

/-- `Data::new_group` (mod.rs:167-180): a fresh 2-slot group at `geo`
with both sizes set to half of the extent (`i32` division, i.e.
truncation). -/
def Data.new_group (orientation : Orientation) (geo : Rect) : Data :=
  .group orientation
    (List.replicate 2
      (match orientation with
       | .vertical => geo.w.tdiv 2
       | .horizontal => geo.h.tdiv 2))
    geo

/-- The proportional rescale inside `Data::update_geometry`
(mod.rs:294-297): each size is mapped to
`round(size / previous_length * new_length)`. -/
def rescale (previous_length new_length : Int) (sizes : List Int) : List Int :=
  sizes.map fun (len : Int) =>
    rustRound ((len : ℚ) / (previous_length : ℚ) * (new_length : ℚ))

/-- `Data::update_geometry` (mod.rs:277-308).  For a group: rescale all
sizes proportionally from the old extent to the new one and, **only when
the rounded sum falls short of the new extent**, add the deficit to the
last size; then store the new rectangle.  For a leaf: store the new
rectangle. -/
def Data.update_geometry (d : Data) (geo : Rect) : Data :=
  match d with
  | .group orientation sizes last_geometry =>
    let previous_length := orientation.length_of last_geometry
    let new_length := orientation.length_of geo
    let sizes1 := rescale previous_length new_length sizes
    let sum := sizes1.sum
    let sizes2 := if sum < new_length then addToLast sizes1 (new_length - sum) else sizes1
    .group orientation sizes2 geo
  | .mapped w b _ => .mapped w b geo

/-- `Data::add_window` (mod.rs:205-230): shrink the existing sizes
proportionally towards `last_length - last_length / (n+1)` and insert the
leftover at `idx`.  On a `Mapped` leaf the source panics; the embedding
returns the value unchanged. -/
def Data.add_window (d : Data) (idx : Nat) : Data :=
  match d with
  | .group orientation sizes last_geometry =>
    let last_length := orientation.length_of last_geometry
    let equal_sizing := last_length.tdiv ((sizes.length : Int) + 1)
    let remainder := last_length - equal_sizing
    let sizes1 := sizes.map fun (size : Int) =>
      rustRound ((size : ℚ) / (last_length : ℚ) * (remainder : ℚ))
    let used_size := sizes1.sum
    let new_size := last_length - used_size
    .group orientation (sizes1.insertIdx idx new_size) last_geometry
  | .mapped _ _ _ => d

/-- `Data::remove_window` (mod.rs:241-268): drop the size at `idx`,
redistribute it to the remaining sizes proportionally to their share, then
absorb any (positive or negative) overflow into the last size.  On a
`Mapped` leaf the source panics; the embedding returns the value
unchanged.  (When the remaining sizes sum to `0` the source divides by
zero in `f64`, and the resulting `NaN.round() as i32` is `0`; the rational
model's `x / 0 = 0` convention yields the same added term `0`.) -/
def Data.remove_window (d : Data) (idx : Nat) : Data :=
  match d with
  | .group orientation sizes last_geometry =>
    let last_length := orientation.length_of last_geometry
    let old_size := sizes.getD idx 0
    let sizes1 := sizes.eraseIdx idx
    let remaining_size := sizes1.sum
    let sizes2 := sizes1.map fun (size : Int) =>
      size + rustRound ((size : ℚ) / (remaining_size : ℚ) * (old_size : ℚ))
    let used_size := sizes2.sum
    let overflow := last_length - used_size
    let sizes3 := if overflow ≠ 0 then addToLast sizes2 overflow else sizes2
    .group orientation sizes3 last_geometry
  | .mapped _ _ _ => d

/-- `Data::swap_windows` (mod.rs:232-239). -/
def Data.swap_windows (d : Data) (i j : Nat) : Data :=
  match d with
  | .group orientation sizes last_geometry =>
    .group orientation ((sizes.set i (sizes.getD j 0)).set j (sizes.getD i 0)) last_geometry
  | .mapped _ _ _ => d

theorem rustRound_nonneg (q : ℚ) (h : 0 ≤ q) : 0 ≤ rustRound q := by
  rw [rustRound, if_pos h]
  have : ((0 : Int) : ℚ) ≤ q + 1 / 2 := by push_cast; linarith
  exact Int.le_floor.mpr this

theorem rustRound_le_intCast (q : ℚ) (n : Int) (h0 : 0 ≤ q) (h : q ≤ (n : ℚ)) :
    rustRound q ≤ n := by
  rw [rustRound, if_pos h0]
  have : q + 1 / 2 < ((n + 1 : Int) : ℚ) := by push_cast; linarith
  exact Int.lt_add_one_iff.mp (Int.floor_lt.mpr this)

theorem sum_map_le_sum (l : List Int) (f : Int → Int) (h : ∀ a ∈ l, f a ≤ a) :
    (l.map f).sum ≤ l.sum := by
  induction l with
  | nil => simp
  | cons a rest ih =>
    simp only [List.map_cons, List.sum_cons]
    have h1 := h a (by simp)
    have h2 := ih fun b hb => h b (by simp [hb])
    omega

/-- **C1, amended** — `Data::update_geometry` (mod.rs:277-308).  After
`update_geometry(new_rect)` on a group whose sizes summed to the previous
extent, every size has been rescaled proportionally (rounding to nearest)
and the sum of the sizes is **at least** the new extent; it equals the new
extent exactly whenever the rounded rescale does not overshoot it (the
deficit is then absorbed into the last element).  The unconditional exact
equality asserted by the claim fails: the source only corrects a rounding
deficit (`sum < new_length`), never an excess. -/
theorem update_geometry_extent_bound (orientation : Orientation) (sizes : List Int)
    (g geo : Rect) (hne : sizes ≠ [])
    (hsum : sizes.sum = orientation.length_of g) :
    orientation.length_of geo ≤
      (Data.update_geometry (.group orientation sizes g) geo).sizes_of.sum ∧
    ((rescale (orientation.length_of g) (orientation.length_of geo) sizes).sum ≤
        orientation.length_of geo →
      (Data.update_geometry (.group orientation sizes g) geo).sizes_of.sum =
        orientation.length_of geo) := by
  have hne1 : rescale (orientation.length_of g) (orientation.length_of geo) sizes ≠ [] := by
    cases sizes with
    | nil => exact absurd rfl hne
    | cons a rest => simp [rescale]
  simp only [Data.update_geometry, Data.sizes_of]
  split_ifs with h
  · rw [addToLast_sum _ _ hne1]
    constructor
    · omega
    · intro _; omega
  · constructor
    · omega
    · intro h2; omega

/-- **C1, counterexample** — a vertical group with sizes `[1, 1]` and width
`2` rescaled to width `3`: both sizes round to `2` (`1/2 · 3 = 1.5`, and
`f64::round` rounds half away from zero), the overshoot `4 > 3` is not
corrected, and `sum(sizes) = 4 ≠ 3`, contradicting the claimed exact
equality even though the precondition `sum(sizes) = old extent` held. -/
theorem update_geometry_overshoot_example :
    [1, 1].sum = Orientation.vertical.length_of ⟨0, 0, 2, 10⟩ ∧
    (Data.update_geometry (.group .vertical [1, 1] ⟨0, 0, 2, 10⟩)
        ⟨0, 0, 3, 10⟩).sizes_of.sum ≠ Orientation.vertical.length_of ⟨0, 0, 3, 10⟩ := by
  constructor
  · decide
  · simp only [Data.update_geometry, rescale, Orientation.length_of, List.map, rustRound,
      Data.sizes_of]
    norm_num

/-- Witness for `update_geometry_extent_bound` at a concrete input. -/
theorem update_geometry_extent_bound_witness :
    Orientation.vertical.length_of ⟨0, 0, 3, 10⟩ ≤
      (Data.update_geometry (.group .vertical [1, 1] ⟨0, 0, 2, 10⟩)
        ⟨0, 0, 3, 10⟩).sizes_of.sum ∧
    ((rescale (Orientation.vertical.length_of ⟨0, 0, 2, 10⟩)
          (Orientation.vertical.length_of ⟨0, 0, 3, 10⟩) [1, 1]).sum ≤
        Orientation.vertical.length_of ⟨0, 0, 3, 10⟩ →
      (Data.update_geometry (.group .vertical [1, 1] ⟨0, 0, 2, 10⟩)
          ⟨0, 0, 3, 10⟩).sizes_of.sum = Orientation.vertical.length_of ⟨0, 0, 3, 10⟩) :=
  update_geometry_extent_bound .vertical [1, 1] ⟨0, 0, 2, 10⟩ ⟨0, 0, 3, 10⟩
    (by decide) (by decide)

/-- **C6** — `Data::remove_window` (mod.rs:241-268).  Removing the size at
a valid index from a group with at least two sizes redistributes its extent
proportionally and then forces `sum(sizes)` back to the extent exactly (any
non-zero overflow, of either sign, is absorbed into the last element); the
length drops by one. -/
theorem remove_window_preserves_extent (orientation : Orientation) (sizes : List Int)
    (g : Rect) (idx : Nat) (hlen : 2 ≤ sizes.length) (hidx : idx < sizes.length)
    (hsum : sizes.sum = orientation.length_of g) :
    (Data.remove_window (.group orientation sizes g) idx).sizes_of.sum =
      orientation.length_of g ∧
    (Data.remove_window (.group orientation sizes g) idx).sizes_of.length =
      sizes.length - 1 := by
  have herase : (sizes.eraseIdx idx).length = sizes.length - 1 :=
    List.length_eraseIdx_of_lt hidx
  simp only [Data.remove_window, Data.sizes_of]
  set sizes2 := (sizes.eraseIdx idx).map fun (size : Int) =>
    size + rustRound ((size : ℚ) / (((sizes.eraseIdx idx).sum : Int) : ℚ) *
      ((sizes.getD idx 0 : Int) : ℚ)) with hs2
  have hlen2 : sizes2.length = sizes.length - 1 := by
    rw [hs2, List.length_map, herase]
  have hne2 : sizes2 ≠ [] := by
    intro hcon
    have := congrArg List.length hcon
    rw [hlen2] at this
    simp at this
    omega
  split_ifs with h
  · rw [addToLast_sum _ _ hne2, addToLast_length]
    constructor
    · omega
    · omega
  · constructor
    · omega
    · omega

/-- Witness for `remove_window_preserves_extent` at a concrete input. -/
theorem remove_window_preserves_extent_witness :
    (Data.remove_window (.group .vertical [30, 70] ⟨0, 0, 100, 10⟩) 0).sizes_of.sum =
      Orientation.vertical.length_of ⟨0, 0, 100, 10⟩ ∧
    (Data.remove_window (.group .vertical [30, 70] ⟨0, 0, 100, 10⟩) 0).sizes_of.length =
      [30, 70].length - 1 :=
  remove_window_preserves_extent .vertical [30, 70] ⟨0, 0, 100, 10⟩ 0
    (by decide) (by decide) (by decide)

/-- **C7, amended** — `Data::add_window` (mod.rs:205-230).  For a group
with nonnegative sizes summing to its extent, with extent at least the
child count after insertion, `add_window(idx)` shrinks every existing size
(each rounded rescale stays between `0` and the original size), gives the
new child the leftover `extent - sum(shrunk)`, and **no resulting size is
negative**.  The claim's stronger "never zero" fails (see
`add_window_zero_size_example`): the new child's leftover can be exactly
`0`. -/
theorem add_window_nonneg_sizes (orientation : Orientation) (sizes : List Int)
    (g : Rect) (idx : Nat)
    (hpos : ∀ s ∈ sizes, 0 ≤ s)
    (hsum : sizes.sum = orientation.length_of g)
    (hext : (sizes.length : Int) + 1 ≤ orientation.length_of g)
    (hidx : idx ≤ sizes.length) :
    (∀ s ∈ (Data.add_window (.group orientation sizes g) idx).sizes_of, 0 ≤ s) ∧
    (Data.add_window (.group orientation sizes g) idx).sizes_of.length =
      sizes.length + 1 := by
  set L := orientation.length_of g with hL
  have hL0 : 0 < L := by
    have : (0 : Int) ≤ (sizes.length : Int) := Int.natCast_nonneg _
    omega
  have hn1 : (0 : Int) < (sizes.length : Int) + 1 := by
    have : (0 : Int) ≤ (sizes.length : Int) := Int.natCast_nonneg _
    omega
  set eq_s := L.tdiv ((sizes.length : Int) + 1) with heq
  have heq0 : 0 ≤ eq_s := Int.tdiv_nonneg hL0.le hn1.le
  have heqL : eq_s ≤ L := by
    rw [heq, Int.tdiv_eq_ediv hL0.le hn1.le]
    exact Int.ediv_le_self _ hL0.le
  set r := L - eq_s with hr
  have hr0 : 0 ≤ r := by omega
  have hrL : r ≤ L := by omega
  have key : ∀ s ∈ sizes,
      0 ≤ rustRound ((s : ℚ) / (L : ℚ) * (r : ℚ)) ∧
      rustRound ((s : ℚ) / (L : ℚ) * (r : ℚ)) ≤ s := by
    intro s hs
    have hs0 : (0 : Int) ≤ s := hpos s hs
    have hLQ : (0 : ℚ) < (L : ℚ) := by exact_mod_cast hL0
    have hq0 : (0 : ℚ) ≤ (s : ℚ) / (L : ℚ) * (r : ℚ) := by
      apply mul_nonneg
      · apply div_nonneg
        · exact_mod_cast hs0
        · exact hLQ.le
      · exact_mod_cast hr0
    have hqs : (s : ℚ) / (L : ℚ) * (r : ℚ) ≤ (s : ℚ) := by
      have h1 : (s : ℚ) / (L : ℚ) * (r : ℚ) = (s : ℚ) * ((r : ℚ) / (L : ℚ)) := by ring
      have h2 : (r : ℚ) / (L : ℚ) ≤ 1 := by
        rw [div_le_one hLQ]
        exact_mod_cast hrL
      rw [h1]
      have hs0Q : (0 : ℚ) ≤ (s : ℚ) := by exact_mod_cast hs0
      calc (s : ℚ) * ((r : ℚ) / (L : ℚ)) ≤ (s : ℚ) * 1 :=
            mul_le_mul_of_nonneg_left h2 hs0Q
        _ = (s : ℚ) := mul_one _
    exact ⟨rustRound_nonneg _ hq0, rustRound_le_intCast _ s hq0 hqs⟩
  set sizes1 := sizes.map fun (size : Int) =>
    rustRound ((size : ℚ) / (L : ℚ) * (r : ℚ)) with hs1
  have hused : sizes1.sum ≤ sizes.sum :=
    sum_map_le_sum sizes _ fun a ha => (key a ha).2
  have hnew0 : 0 ≤ L - sizes1.sum := by omega
  have hlen1 : sizes1.length = sizes.length := List.length_map _ _
  simp only [Data.add_window, Data.sizes_of, ← hL, ← heq, ← hr, ← hs1]
  constructor
  · intro s hmem
    rw [List.mem_insertIdx (by omega)] at hmem
    rcases hmem with hmem | hmem
    · omega
    · rcases List.mem_map.mp hmem with ⟨a, ha, rfl⟩
      exact (key a ha).1
  · rw [List.length_insertIdx _ _ (by omega), hlen1]

/-- **C7, counterexample** — a vertical group with sizes `[2, 2]` and
width `4` (so extent `4 ≥ 3`, the child count after insertion, and the
sizes sum to the extent): `equal_sizing = 4/3 = 1`, `remainder = 3`, each
existing size becomes `round(2/4 · 3) = round(1.5) = 2`, the shrunk sizes
already use the whole extent, and the inserted child's size is `0` —
refuting "no resulting size is negative **or zero**". -/
theorem add_window_zero_size_example :
    ([2, 2].sum = Orientation.vertical.length_of ⟨0, 0, 4, 10⟩) ∧
    (([2, 2] : List Int).length : Int) + 1 ≤ Orientation.vertical.length_of ⟨0, 0, 4, 10⟩ ∧
    (0 : Int) ∈ (Data.add_window (.group .vertical [2, 2] ⟨0, 0, 4, 10⟩) 0).sizes_of := by
  refine ⟨by decide, by decide, ?_⟩
  have : Data.add_window (.group .vertical [2, 2] ⟨0, 0, 4, 10⟩) 0 =
      .group .vertical [0, 2, 2] ⟨0, 0, 4, 10⟩ := by
    simp only [Data.add_window, Orientation.length_of, List.map, rustRound]
    norm_num [Int.tdiv, List.insertIdx]
  rw [this]
  simp [Data.sizes_of]

/-- Witness for `add_window_nonneg_sizes` at a concrete input. -/
theorem add_window_nonneg_sizes_witness :
    (∀ s ∈ (Data.add_window (.group .vertical [30, 70] ⟨0, 0, 100, 10⟩) 1).sizes_of,
      0 ≤ s) ∧
    (Data.add_window (.group .vertical [30, 70] ⟨0, 0, 100, 10⟩) 1).sizes_of.length =
      [30, 70].length + 1 :=
  add_window_nonneg_sizes .vertical [30, 70] ⟨0, 0, 100, 10⟩ 1
    (by decide) (by decide) (by decide) (by decide)

/-! ## Tree shape

For the geometry solver and the resize walk only the parent/child structure
along paths matters, so the `id_tree::Tree` is modelled as a rose tree: a
node carries its `Data` payload and its ordered children. -/

inductive LTree where
  | node (data : Data) (children : List LTree)

mutual
/-- Well-formedness of a tree as maintained by the source (§3 of the data
model): a `Group`'s `sizes` list always has one entry per child and a
`Group` always has at least one child; a `Mapped` leaf has no children. -/
def wf_tree : LTree → Bool
  | .node d cs =>
    (match d with
     | .group _ sizes _ => sizes.length == cs.length && decide (0 < cs.length)
     | .mapped _ _ _ => cs.isEmpty) && wf_forest cs
def wf_forest : List LTree → Bool
  | [] => true
  | c :: cs => wf_tree c && wf_forest cs
end

mutual
/-- "No `Group` node has exactly one child", recursively. -/
def no_single_child_tree : LTree → Bool
  | .node d cs => !(d.is_group && cs.length == 1) && no_single_child_forest cs
def no_single_child_forest : List LTree → Bool
  | [] => true
  | c :: cs => no_single_child_tree c && no_single_child_forest cs
end

theorem wf_tree_node (d : Data) (cs : List LTree) :
    wf_tree (.node d cs) =
      ((match d with
        | .group _ sizes _ => sizes.length == cs.length && decide (0 < cs.length)
        | .mapped _ _ _ => cs.isEmpty) && wf_forest cs) := by
  rw [wf_tree.eq_def]

theorem wf_forest_cons (c : LTree) (cs : List LTree) :
    wf_forest (c :: cs) = (wf_tree c && wf_forest cs) := by
  rw [wf_forest.eq_def]

theorem no_single_child_tree_node (d : Data) (cs : List LTree) :
    no_single_child_tree (.node d cs) =
      (!(d.is_group && cs.length == 1) && no_single_child_forest cs) := by
  rw [no_single_child_tree.eq_def]

theorem no_single_child_forest_nil : no_single_child_forest [] = true := by
  rw [no_single_child_forest.eq_def]

theorem no_single_child_forest_cons (c : LTree) (cs : List LTree) :
    no_single_child_forest (c :: cs) =
      (no_single_child_tree c && no_single_child_forest cs) := by
  rw [no_single_child_forest.eq_def]

theorem wf_forest_mem {cs : List LTree} {c : LTree} (h : wf_forest cs = true)
    (hc : c ∈ cs) : wf_tree c = true := by
  induction cs with
  | nil => cases hc
  | cons a rest ih =>
    rw [wf_forest_cons, Bool.and_eq_true] at h
    rcases List.mem_cons.mp hc with h1 | h2
    · exact h1 ▸ h.1
    · exact ih h.2 h2

/-- Structural induction with access to all children (the recursor of the
nested inductive, repackaged). -/
theorem ltree_strong_ind (P : LTree → Prop)
    (h : ∀ d cs, (∀ c, c ∈ cs → P c) → P (LTree.node d cs)) : ∀ t, P t :=
  fun t =>
    @LTree.rec P (fun cs => ∀ c, c ∈ cs → P c)
      (fun d cs ih => h d cs ih)
      (fun c hc => nomatch hc)
      (fun hd tl Phd Ptl c hc =>
        Or.elim (List.mem_cons.mp hc) (fun h1 => h1 ▸ Phd) (fun h2 => Ptl c h2))
      t

/-- The sub-rectangle computation of the geometry solver (mod.rs:1686-1710):
child `i` of a group receives the slice of the group's rectangle starting
at the sum of the sizes before `i`, with extent `sizes[i]`, along the
orientation axis.  (The source iterates the sizes in reverse, pushing the
slices on a stack so that they are popped in child order; accumulating the
offset forwards yields the same list of rectangles in pop order.) -/
def child_rects_go (orientation : Orientation) (geo : Rect) : Int → List Int → List Rect
  | _, [] => []
  | previous, s :: rest =>
    (match orientation with
     | .horizontal => Rect.mk geo.x (geo.y + previous) geo.w s
     | .vertical => Rect.mk (geo.x + previous) geo.y s geo.h) ::
      child_rects_go orientation geo (previous + s) rest

def child_rects (orientation : Orientation) (sizes : List Int) (geo : Rect) : List Rect :=
  child_rects_go orientation geo 0 sizes

theorem child_rects_go_length (orientation : Orientation) (geo : Rect) :
    ∀ (previous : Int) (sizes : List Int),
      (child_rects_go orientation geo previous sizes).length = sizes.length := by
  intro previous sizes
  induction sizes generalizing previous with
  | nil => rfl
  | cons s rest ih => simp [child_rects_go, ih]

theorem child_rects_length (orientation : Orientation) (sizes : List Int) (geo : Rect) :
    (child_rects orientation sizes geo).length = sizes.length :=
  child_rects_go_length orientation geo 0 sizes

/-- The inner-gap shrink applied to `Mapped` leaves (mod.rs:1680-1683):
`geo.loc += (inner, inner); geo.size -= (inner*2, inner*2)`. -/
def shrink_by_gap (geo : Rect) (inner : Int) : Rect :=
  ⟨geo.x + inner, geo.y + inner, geo.w - inner * 2, geo.h - inner * 2⟩

mutual
/-- `TilingLayout::update_positions` (mod.rs:1620-1742), the geometry
solver, as structural recursion.  The source performs a pre-order,
stack-based traversal over node ids collected up front; on a well-formed
tree this visits exactly the nodes of the recursive descent below, each
popping the rectangle its parent pushed for it:

* a `Group` whose `sizes` has exactly one entry is collapsed before being
  visited — its sole child is lifted into its position (the
  `remove_node(LiftChildren)` + `make_nth_sibling` dance, mod.rs:1648-1675)
  and is then visited with the same rectangle off the stack;
* otherwise the node's geometry is updated (leaves first shrunk by the
  inner gap) and, for a group, one sub-rectangle per child is pushed.

The client configure/blocker bookkeeping (mod.rs:1711-1738) is external
I/O and not part of the structural model; the initial rectangle (the
output's non-exclusive zone minus the outer gap) is the `geo` argument.
The `[]` collapse arm models a source panic (`next().unwrap()` on no
children) and is unreachable for well-formed trees. -/
def TilingLayout.update_positions (inner : Int) : LTree → Rect → LTree
  | .node d cs, geo =>
    if d.is_group && d.len == 1 then
      match cs with
      | c :: _ => TilingLayout.update_positions inner c geo
      | [] => .node d []
    else
      let geo1 := if d.is_mapped_leaf then shrink_by_gap geo inner else geo
      let d1 := d.update_geometry geo1
      match d1 with
      | .group orientation sizes _ =>
        .node d1 (TilingLayout.update_children inner cs (child_rects orientation sizes geo1))
      | .mapped _ _ _ => .node d1 cs
def TilingLayout.update_children (inner : Int) : List LTree → List Rect → List LTree
  | [], _ => []
  | _ :: _, [] => []
  | c :: cs, r :: rs =>
    TilingLayout.update_positions inner c r :: TilingLayout.update_children inner cs rs
end

theorem update_positions_node (inner : Int) (d : Data) (cs : List LTree) (geo : Rect) :
    TilingLayout.update_positions inner (.node d cs) geo =
      (if d.is_group && d.len == 1 then
        match cs with
        | c :: _ => TilingLayout.update_positions inner c geo
        | [] => .node d []
      else
        let geo1 := if d.is_mapped_leaf then shrink_by_gap geo inner else geo
        let d1 := d.update_geometry geo1
        match d1 with
        | .group orientation sizes _ =>
          .node d1 (TilingLayout.update_children inner cs (child_rects orientation sizes geo1))
        | .mapped _ _ _ => .node d1 cs) := by
  rw [TilingLayout.update_positions.eq_def]

theorem update_children_nil (inner : Int) (rs : List Rect) :
    TilingLayout.update_children inner [] rs = [] := by
  rw [TilingLayout.update_children.eq_def]

theorem update_children_cons_nil (inner : Int) (c : LTree) (cs : List LTree) :
    TilingLayout.update_children inner (c :: cs) [] = [] := by
  rw [TilingLayout.update_children.eq_def]

theorem update_children_cons (inner : Int) (c : LTree) (cs : List LTree)
    (r : Rect) (rs : List Rect) :
    TilingLayout.update_children inner (c :: cs) (r :: rs) =
      TilingLayout.update_positions inner c r :: TilingLayout.update_children inner cs rs := by
  rw [TilingLayout.update_children.eq_def]

theorem update_children_length (inner : Int) :
    ∀ (cs : List LTree) (rs : List Rect),
      (TilingLayout.update_children inner cs rs).length = min cs.length rs.length := by
  intro cs
  induction cs with
  | nil => intro rs; simp [update_children_nil]
  | cons c rest ih =>
    intro rs
    cases rs with
    | nil => simp [update_children_cons_nil]
    | cons r rrest => simp [update_children_cons, ih]; omega

theorem update_geometry_group (orientation : Orientation) (sizes : List Int)
    (g geo : Rect) :
    ∃ sizes2, (Data.group orientation sizes g).update_geometry geo =
        .group orientation sizes2 geo ∧ sizes2.length = sizes.length := by
  simp only [Data.update_geometry]
  split_ifs with h
  · exact ⟨_, rfl, by rw [addToLast_length, rescale, List.length_map]⟩
  · exact ⟨_, rfl, by rw [rescale, List.length_map]⟩

theorem no_single_forest_update_children (inner : Int) :
    ∀ (cs : List LTree) (rs : List Rect),
      (∀ c ∈ cs, ∀ geo, no_single_child_tree (TilingLayout.update_positions inner c geo) = true) →
      no_single_child_forest (TilingLayout.update_children inner cs rs) = true := by
  intro cs
  induction cs with
  | nil =>
    intro rs _h
    cases rs <;> simp [update_children_nil, no_single_child_forest_nil]
  | cons c rest ih =>
    intro rs h
    cases rs with
    | nil => simp [update_children_cons_nil, no_single_child_forest_nil]
    | cons r rrest =>
      rw [update_children_cons, no_single_child_forest_cons, Bool.and_eq_true]
      exact ⟨h c (by simp) r, ih rrest fun c2 hc2 geo => h c2 (by simp [hc2]) geo⟩

/-- **C5** — after a full geometry-solver pass (`update_positions`,
mod.rs:1620-1742) over a well-formed tree, no `Group` node in the result
has exactly one child; and a single-child `Group` is collapsed by lifting
its sole child into the `Group`'s position, where it is visited with the
`Group`'s rectangle (second conjunct: the collapse equation). -/
theorem update_positions_no_single_child :
    (∀ (t : LTree) (inner : Int) (geo : Rect), wf_tree t = true →
      no_single_child_tree (TilingLayout.update_positions inner t geo) = true) ∧
    (∀ (d : Data) (c : LTree) (rest : List LTree) (inner : Int) (geo : Rect),
      d.is_group = true → d.len = 1 →
      TilingLayout.update_positions inner (.node d (c :: rest)) geo =
        TilingLayout.update_positions inner c geo) := by
  constructor
  · intro t
    induction t using ltree_strong_ind with
    | h d cs ih =>
      intro inner geo hwf
      rw [wf_tree_node, Bool.and_eq_true] at hwf
      obtain ⟨hshape, hforest⟩ := hwf
      by_cases hcol : (d.is_group && d.len == 1) = true
      · -- collapse branch: `cs` is a single child, which is recursed into
        have hcol2 := hcol
        rw [Bool.and_eq_true, beq_iff_eq] at hcol2
        obtain ⟨hg, hlen1⟩ := hcol2
        cases d with
        | mapped w b r => simp [Data.is_group] at hg
        | group orientation sizes g =>
          rw [Data.len] at hlen1
          have hcs1 : cs.length = 1 := by
            rw [Bool.and_eq_true, beq_iff_eq] at hshape
            omega
          cases cs with
          | nil => simp at hcs1
          | cons c rest =>
            rw [update_positions_node, if_pos hcol]
            exact ih c (by simp) inner geo (wf_forest_mem hforest (by simp))
      · rw [update_positions_node, if_neg hcol]
        cases d with
        | group orientation sizes g =>
          simp only [Data.is_mapped_leaf, if_neg Bool.false_ne_true]
          obtain ⟨sizes2, heq, hlen2⟩ := update_geometry_group orientation sizes g geo
          rw [heq]
          rw [no_single_child_tree_node, Bool.and_eq_true]
          constructor
          · have hnot1 : sizes.length ≠ 1 := by
              intro hc
              apply hcol
              simp [Data.is_group, Data.len, hc]
            rw [Bool.and_eq_true, beq_iff_eq] at hshape
            have hcl : (TilingLayout.update_children inner cs
                (child_rects orientation sizes2 geo)).length = cs.length := by
              rw [update_children_length, child_rects_length]
              omega
            simp only [Data.is_group, Bool.true_and, hcl, beq_iff_eq, Bool.not_eq_true']
            exact decide_eq_false (by omega)
          · exact no_single_forest_update_children inner cs _
              fun c hc geo2 => ih c hc inner geo2 (wf_forest_mem hforest hc)
        | mapped w b r =>
          simp only [Data.is_mapped_leaf, if_pos rfl, Data.update_geometry]
          have hcs : cs = [] := by
            dsimp only at hshape
            rwa [List.isEmpty_iff] at hshape

          subst hcs
          simp [no_single_child_tree_node, no_single_child_forest_nil, Data.is_group]
  · intro d c rest inner geo hg hlen
    rw [update_positions_node, if_pos (by simp [hg, hlen])]

/-- Witness for `update_positions_no_single_child` at a concrete input:
a root group holding a single-child group (as produced by a removal)
and a leaf. -/
theorem update_positions_no_single_child_witness :
    no_single_child_tree (TilingLayout.update_positions 0
      (.node (.group .vertical [50, 50] ⟨0, 0, 100, 100⟩)
        [.node (.group .horizontal [100] ⟨0, 0, 50, 100⟩)
          [.node (.mapped 0 none ⟨0, 0, 50, 100⟩) []],
          .node (.mapped 1 none ⟨50, 0, 50, 100⟩) []])
      ⟨0, 0, 100, 100⟩) = true :=
  update_positions_no_single_child.1
    (.node (.group .vertical [50, 50] ⟨0, 0, 100, 100⟩)
      [.node (.group .horizontal [100] ⟨0, 0, 50, 100⟩)
        [.node (.mapped 0 none ⟨0, 0, 50, 100⟩) []],
        .node (.mapped 1 none ⟨50, 0, 50, 100⟩) []])
    0 ⟨0, 0, 100, 100⟩ (by decide)

/-! ## Resize (`TilingLayout::resize`, mod.rs:1426-1512) -/

/-- `ResizeDirection` (`shell/mod.rs`): grow outwards or shrink inwards. -/
inductive ResizeDirection where
  | inwards
  | outwards
deriving DecidableEq, Repr

/-- The `ResizeEdge` bitflags (`shell/grabs`): which edges the resize was
requested on. -/
structure ResizeEdges where
  left : Bool
  right : Bool
  top : Bool
  bottom : Bool
deriving DecidableEq, Repr

/-- The guard of the ancestor walk (mod.rs:1452-1455): a group matches the
requested edges when its orientation is `Vertical` and a horizontal edge
(`LEFT`/`RIGHT`) was requested, or `Horizontal` and a vertical edge
(`TOP`/`BOTTOM`) was requested. -/
def orientation_matches (orientation : Orientation) (edges : ResizeEdges) : Bool :=
  match orientation with
  | .vertical => edges.left || edges.right
  | .horizontal => edges.top || edges.bottom

/-- The sibling on the other side of the resized boundary
(mod.rs:1466-1472): for edges intersecting `TOP_LEFT` the previous sibling
(`checked_sub`), otherwise the next one if it exists.  (`count` is the
child count of the matched group; at every call site the focused node is
one of the children, so `count ≥ 1` and the `usize` subtraction cannot
wrap.) -/
def other_idx (edges : ResizeEdges) (node_idx count : Nat) : Option Nat :=
  if edges.top || edges.left then
    match node_idx with
    | 0 => none
    | k + 1 => some k
  else if count - 1 > node_idx then some (node_idx + 1) else none

/-- The per-pane minimum (mod.rs:1495-1499): `360` along vertical splits,
`240` along horizontal ones. -/
def Orientation.resize_min : Orientation → Int
  | .vertical => 360
  | .horizontal => 240

/-- The combined-pair minimum (mod.rs:1484-1488): `720` / `480`. -/
def Orientation.resize_combined_min : Orientation → Int
  | .vertical => 720
  | .horizontal => 480

/-- `(shrink_idx, grow_idx)` (mod.rs:1478-1482). -/
def shrink_grow (direction : ResizeDirection) (node_idx oidx : Nat) : Nat × Nat :=
  if direction = ResizeDirection.inwards then (node_idx, oidx) else (oidx, node_idx)

/-- The size mutation of a matched group (mod.rs:1493-1501): clamp the
shrinking side at the minimum, then grow the other side by exactly the
consumed difference. -/
def resize_sizes (orientation : Orientation) (sizes : List Int)
    (shrink_idx grow_idx : Nat) (amount : Int) : List Int :=
  let old_size := sizes.getD shrink_idx 0
  let new_shrink := max (old_size - amount) orientation.resize_min
  let sizes1 := sizes.set shrink_idx new_shrink
  let diff := old_size - new_shrink
  sizes1.set grow_idx (sizes1.getD grow_idx 0 + diff)

/-- The node within a tree addressed by a path of child indices. -/
def node_at : LTree → List Nat → Option LTree
  | t, [] => some t
  | .node _ cs, i :: p =>
    match cs.get? i with
    | some c => node_at c p
    | none => none

/-- Replace the node at a path (used to re-assemble the tree after the
in-place `sizes` mutation of the source). -/
def modify_at : LTree → List Nat → (LTree → LTree) → LTree
  | t, [], f => f t
  | .node d cs, i :: p, f =>
    match cs.get? i with
    | some c => .node d (cs.set i (modify_at c p f))
    | none => .node d cs
termination_by t path _ => path.length

/-- The ancestor walk of `TilingLayout::resize` (mod.rs:1450-1511).  The
focused node is addressed by `rpath`, its path **reversed** (head = index
of the node among its parent's children); each iteration examines the
parent group and either climbs (orientation mismatch, or no sibling on the
required side), returns with no change when the pair is already below the
combined minimum, or applies `resize_sizes` — in every one of those cases
the returned flag is `true`.  Only running out of ancestors leaves the
loop, and the source then *also* returns `true` (mod.rs:1511).  The
catch-all arm models the `orientation()` panic on a malformed path and is
excluded by the theorems' hypotheses. -/
def TilingLayout.resize_loop (t : LTree) : List Nat → ResizeEdges → ResizeDirection →
    Int → LTree × Bool
  | [], _, _, _ => (t, true)
  | node_idx :: rparent, edges, direction, amount =>
    match node_at t rparent.reverse with
    | some (.node (.group orientation sizes g) cs) =>
      if orientation_matches orientation edges then
        match other_idx edges node_idx cs.length with
        | some oidx =>
          if sizes.getD (shrink_grow direction node_idx oidx).1 0 +
                sizes.getD (shrink_grow direction node_idx oidx).2 0 <
              orientation.resize_combined_min then
            (t, true)
          else
            (modify_at t rparent.reverse fun _ =>
              .node (.group orientation
                (resize_sizes orientation sizes (shrink_grow direction node_idx oidx).1
                  (shrink_grow direction node_idx oidx).2 amount) g) cs,
             true)
        | none => TilingLayout.resize_loop t rparent edges direction amount
      else TilingLayout.resize_loop t rparent edges direction amount
    | _ => (t, true)

/-- `TilingLayout::resize` (mod.rs:1426-1512).  The resolution of the
opaque focus target to a tree node (mod.rs:1433-1445, via
`currently_focused_node` and the per-output search) is external input
here: `resolved` is `none` when no output's tree contains the focus
target — the **only** case in which the source returns `false` — and
otherwise carries the tree and the focused node's path. -/
def TilingLayout.resize (resolved : Option (LTree × List Nat)) (edges : ResizeEdges)
    (direction : ResizeDirection) (amount : Int) : Bool :=
  match resolved with
  | none => false
  | some (t, path) => (TilingLayout.resize_loop t path.reverse edges direction amount).2

theorem resize_loop_snd (t : LTree) :
    ∀ (rpath : List Nat) (edges : ResizeEdges) (direction : ResizeDirection) (amount : Int),
      (TilingLayout.resize_loop t rpath edges direction amount).2 = true := by
  intro rpath
  induction rpath with
  | nil => intro edges direction amount; rfl
  | cons node_idx rparent ih =>
    intro edges direction amount
    rw [TilingLayout.resize_loop]
    split
    · split
      · split
        · split
          · rfl
          · rfl
        · exact ih edges direction amount
      · exact ih edges direction amount
    · rfl

/-- **C3, amended** — `TilingLayout::resize` returns `false` **only** when
the focus target cannot be resolved to a node of any output's tree
(mod.rs:1445); whenever a focused node is resolved it returns `true`, even
when no ancestor group matches the requested edges (the loop falls through
to `true`, mod.rs:1511). -/
theorem resize_false_only_on_unresolved_focus :
    (∀ (edges : ResizeEdges) (direction : ResizeDirection) (amount : Int),
      TilingLayout.resize none edges direction amount = false) ∧
    (∀ (t : LTree) (path : List Nat) (edges : ResizeEdges) (direction : ResizeDirection)
        (amount : Int),
      TilingLayout.resize (some (t, path)) edges direction amount = true) := by
  constructor
  · intro edges direction amount; rfl
  · intro t path edges direction amount
    exact resize_loop_snd t path.reverse edges direction amount

/-- **C3, counterexample** — a resolved focus inside a tree whose only
ancestor group is `Vertical` while the requested edge is `TOP`: no
ancestor group matches the requested edges, yet `resize` returns `true`,
where the claim demands `false`. -/
theorem resize_true_without_matching_ancestor :
    orientation_matches .vertical ⟨false, false, true, false⟩ = false ∧
    TilingLayout.resize
      (some (.node (.group .vertical [500, 500] ⟨0, 0, 1000, 500⟩)
        [.node (.mapped 0 none ⟨0, 0, 500, 500⟩) [],
          .node (.mapped 1 none ⟨500, 0, 500, 500⟩) []], [0]))
      ⟨false, false, true, false⟩ ResizeDirection.outwards 10 = true := by
  constructor
  · rfl
  · rfl

/-- **C4** — the successful-resize arithmetic (mod.rs:1474-1511).  When the
walk reaches a matching group (parent addressed by `rparent.reverse`,
matching orientation, a sibling on the required side): if the pair's
combined size is already below the combined minimum, the tree is returned
unchanged and the result is still `true`; otherwise the shrinking side
becomes `max(old - amount, min)` (so it is never pushed below the per-pane
minimum `360`/`240`), the growing side gains exactly the consumed
difference, the pair's combined extent is unchanged, every other size is
untouched, and the result is `true`. -/
theorem resize_respects_minimums (t : LTree) (node_idx : Nat) (rparent : List Nat)
    (edges : ResizeEdges) (direction : ResizeDirection) (amount : Int)
    (orientation : Orientation) (sizes : List Int) (g : Rect) (cs : List LTree)
    (oidx shrink_idx grow_idx : Nat)
    (hnode : node_at t rparent.reverse = some (.node (.group orientation sizes g) cs))
    (hmatch : orientation_matches orientation edges = true)
    (hoidx : other_idx edges node_idx cs.length = some oidx)
    (hsg : shrink_grow direction node_idx oidx = (shrink_idx, grow_idx))
    (hs : shrink_idx < sizes.length) (hg : grow_idx < sizes.length)
    (hne : shrink_idx ≠ grow_idx) :
    ((sizes.getD shrink_idx 0 + sizes.getD grow_idx 0 < orientation.resize_combined_min →
        TilingLayout.resize_loop t (node_idx :: rparent) edges direction amount = (t, true)) ∧
      (¬ sizes.getD shrink_idx 0 + sizes.getD grow_idx 0 < orientation.resize_combined_min →
        TilingLayout.resize_loop t (node_idx :: rparent) edges direction amount =
          (modify_at t rparent.reverse fun _ =>
            .node (.group orientation
              (resize_sizes orientation sizes shrink_idx grow_idx amount) g) cs, true) ∧
        (resize_sizes orientation sizes shrink_idx grow_idx amount).getD shrink_idx 0 =
          max (sizes.getD shrink_idx 0 - amount) orientation.resize_min ∧
        orientation.resize_min ≤
          (resize_sizes orientation sizes shrink_idx grow_idx amount).getD shrink_idx 0 ∧
        (resize_sizes orientation sizes shrink_idx grow_idx amount).getD grow_idx 0 =
          sizes.getD grow_idx 0 + (sizes.getD shrink_idx 0 -
            max (sizes.getD shrink_idx 0 - amount) orientation.resize_min) ∧
        (resize_sizes orientation sizes shrink_idx grow_idx amount).getD shrink_idx 0 +
            (resize_sizes orientation sizes shrink_idx grow_idx amount).getD grow_idx 0 =
          sizes.getD shrink_idx 0 + sizes.getD grow_idx 0 ∧
        (∀ j, j ≠ shrink_idx → j ≠ grow_idx →
          (resize_sizes orientation sizes shrink_idx grow_idx amount).getD j 0 =
            sizes.getD j 0) ∧
        (resize_sizes orientation sizes shrink_idx grow_idx amount).length =
          sizes.length)) := by
  have hset_shrink : (sizes.set shrink_idx
      (max (sizes.getD shrink_idx 0 - amount) orientation.resize_min)).getD shrink_idx 0 =
      max (sizes.getD shrink_idx 0 - amount) orientation.resize_min := by
    rw [List.getD_eq_getElem?_getD, List.getElem?_set_eq_of_lt _ hs]
    rfl
  have hset_grow_of_shrink : (sizes.set shrink_idx
      (max (sizes.getD shrink_idx 0 - amount) orientation.resize_min)).getD grow_idx 0 =
      sizes.getD grow_idx 0 := by
    rw [List.getD_eq_getElem?_getD, List.getElem?_set_ne (by omega),
      ← List.getD_eq_getElem?_getD]
  have hrs : ∀ j, (resize_sizes orientation sizes shrink_idx grow_idx amount).getD j 0 =
      if j = grow_idx then sizes.getD grow_idx 0 + (sizes.getD shrink_idx 0 -
          max (sizes.getD shrink_idx 0 - amount) orientation.resize_min)
      else if j = shrink_idx then max (sizes.getD shrink_idx 0 - amount) orientation.resize_min
      else sizes.getD j 0 := by
    intro j
    rw [resize_sizes]
    by_cases hj : j = grow_idx
    · subst hj
      rw [if_pos rfl, List.getD_eq_getElem?_getD,
        List.getElem?_set_eq_of_lt _ (by rw [List.length_set]; omega)]
      simp only [Option.getD_some, hset_grow_of_shrink]
    · rw [if_neg hj, List.getD_eq_getElem?_getD, List.getElem?_set_ne (by omega),
        ← List.getD_eq_getElem?_getD]
      by_cases hj2 : j = shrink_idx
      · subst hj2
        rw [if_pos rfl, hset_shrink]
      · rw [if_neg hj2, List.getD_eq_getElem?_getD, List.getElem?_set_ne (by omega),
          ← List.getD_eq_getElem?_getD]
  have hdisp : TilingLayout.resize_loop t (node_idx :: rparent) edges direction amount =
      if sizes.getD shrink_idx 0 + sizes.getD grow_idx 0 < orientation.resize_combined_min then
        (t, true)
      else
        (modify_at t rparent.reverse fun _ =>
          .node (.group orientation
            (resize_sizes orientation sizes shrink_idx grow_idx amount) g) cs, true) := by
    simp only [TilingLayout.resize_loop, hnode, hmatch, hoidx, hsg, if_true]
  constructor
  · intro hsmall
    rw [hdisp, if_pos hsmall]
  · intro hbig
    refine ⟨?_, ?_, ?_, ?_, ?_, ?_, ?_⟩
    · rw [hdisp, if_neg hbig]
    · rw [hrs shrink_idx, if_neg (Ne.symm (by omega)), if_pos rfl]
    · rw [hrs shrink_idx, if_neg (Ne.symm (by omega)), if_pos rfl]
      exact le_max_right _ _
    · rw [hrs grow_idx, if_pos rfl]
    · rw [hrs shrink_idx, hrs grow_idx, if_neg (Ne.symm (by omega)), if_pos rfl, if_pos rfl]
      ring
    · intro j hj1 hj2
      rw [hrs j, if_neg hj2, if_neg hj1]
    · rw [resize_sizes]
      simp only [List.length_set]

/-- Witness for `resize_respects_minimums` at a concrete input: the root is
a matching vertical group `[500, 500]`, resized outwards at the `RIGHT`
edge. -/
theorem resize_respects_minimums_witness :
    (([500, 500] : List Int).getD 1 0 + ([500, 500] : List Int).getD 0 0 <
        Orientation.vertical.resize_combined_min →
      TilingLayout.resize_loop
        (.node (.group .vertical [500, 500] ⟨0, 0, 1000, 500⟩)
          [.node (.mapped 0 none ⟨0, 0, 500, 500⟩) [],
            .node (.mapped 1 none ⟨500, 0, 500, 500⟩) []])
        [0] ⟨false, true, false, false⟩ ResizeDirection.outwards 50 =
        (.node (.group .vertical [500, 500] ⟨0, 0, 1000, 500⟩)
          [.node (.mapped 0 none ⟨0, 0, 500, 500⟩) [],
            .node (.mapped 1 none ⟨500, 0, 500, 500⟩) []], true)) ∧
    (¬ ([500, 500] : List Int).getD 1 0 + ([500, 500] : List Int).getD 0 0 <
        Orientation.vertical.resize_combined_min →
      TilingLayout.resize_loop
        (.node (.group .vertical [500, 500] ⟨0, 0, 1000, 500⟩)
          [.node (.mapped 0 none ⟨0, 0, 500, 500⟩) [],
            .node (.mapped 1 none ⟨500, 0, 500, 500⟩) []])
        [0] ⟨false, true, false, false⟩ ResizeDirection.outwards 50 =
        (modify_at
          (.node (.group .vertical [500, 500] ⟨0, 0, 1000, 500⟩)
            [.node (.mapped 0 none ⟨0, 0, 500, 500⟩) [],
              .node (.mapped 1 none ⟨500, 0, 500, 500⟩) []]) [].reverse fun _ =>
          .node (.group .vertical
            (resize_sizes .vertical [500, 500] 1 0 50) ⟨0, 0, 1000, 500⟩)
            [.node (.mapped 0 none ⟨0, 0, 500, 500⟩) [],
              .node (.mapped 1 none ⟨500, 0, 500, 500⟩) []], true) ∧
      (resize_sizes .vertical [500, 500] 1 0 50).getD 1 0 =
        max (([500, 500] : List Int).getD 1 0 - 50) Orientation.vertical.resize_min ∧
      Orientation.vertical.resize_min ≤ (resize_sizes .vertical [500, 500] 1 0 50).getD 1 0 ∧
      (resize_sizes .vertical [500, 500] 1 0 50).getD 0 0 =
        ([500, 500] : List Int).getD 0 0 + (([500, 500] : List Int).getD 1 0 -
          max (([500, 500] : List Int).getD 1 0 - 50) Orientation.vertical.resize_min) ∧
      (resize_sizes .vertical [500, 500] 1 0 50).getD 1 0 +
          (resize_sizes .vertical [500, 500] 1 0 50).getD 0 0 =
        ([500, 500] : List Int).getD 1 0 + ([500, 500] : List Int).getD 0 0 ∧
      (∀ j, j ≠ 1 → j ≠ 0 →
        (resize_sizes .vertical [500, 500] 1 0 50).getD j 0 =
          ([500, 500] : List Int).getD j 0) ∧
      (resize_sizes .vertical [500, 500] 1 0 50).length = ([500, 500] : List Int).length) :=
  resize_respects_minimums
    (.node (.group .vertical [500, 500] ⟨0, 0, 1000, 500⟩)
      [.node (.mapped 0 none ⟨0, 0, 500, 500⟩) [],
        .node (.mapped 1 none ⟨500, 0, 500, 500⟩) []])
    0 [] ⟨false, true, false, false⟩ ResizeDirection.outwards 50
    .vertical [500, 500] ⟨0, 0, 1000, 500⟩
    [.node (.mapped 0 none ⟨0, 0, 500, 500⟩) [],
      .node (.mapped 1 none ⟨500, 0, 500, 500⟩) []]
    1 1 0 rfl rfl rfl rfl (by decide) (by decide) (by decide)

/-! ## Animation queue (`TilingLayout::update_animation_state`, mod.rs:1354-1390) -/

/-- The observable state of a `TilingBlocker` (blocker.rs): whether the
necessary client acknowledgements are logically required to be fulfilled
(`is_ready`) and whether they have actually been received
(`is_signaled`). -/
structure TilingBlocker where
  ready : Bool
  signaled : Bool
deriving DecidableEq, Repr

/-- One entry of a `TreeQueue` (mod.rs:126-130): the snapshot (abstracted
to an identifier — its contents play no role in the tick logic), its
animation duration (in abstract time units) and its optional blocker. -/
structure QueueEntry where
  tree : Nat
  duration : Nat
  blocker : Option TilingBlocker
deriving DecidableEq, Repr

/-- A per-output queue: the snapshot entries (front = currently presented)
and the running animation's start instant, if any. -/
structure TreeQueue where
  trees : List QueueEntry
  animation_start : Option Nat
deriving DecidableEq, Repr

/-- `queue.trees.pop_front(); queue.trees.front_mut().unwrap().2.take()`
(mod.rs:1371-1372): the new front entry's blocker is cleared.  The `[]`
arm models the `unwrap` panic, unreachable under the queue invariant
(an animating queue holds at least two entries). -/
def clear_front_blocker : List QueueEntry → List QueueEntry
  | [] => []
  | e :: rest => { e with blocker := none } :: rest

/-- The promotion step (mod.rs:1377-1386): if a second (pending) entry
exists, start its animation now — but when it has a blocker, only once the
blocker is both ready and signaled. -/
def try_promote (now : Nat) (q : TreeQueue) : TreeQueue :=
  match q.trees.get? 1 with
  | some e =>
    match e.blocker with
    | some b =>
      if b.ready && b.signaled then { q with animation_start := some now } else q
    | none => { q with animation_start := some now }
  | none => q

/-- Does the pending (second) entry's blocker pass the promotion gate? -/
def blocker_passes : Option TilingBlocker → Bool
  | none => true
  | some b => b.ready && b.signaled

/-- `true` when a pending (second) entry exists and its blocker passes. -/
def second_promotable (trees : List QueueEntry) : Bool :=
  match trees.get? 1 with
  | some e => blocker_passes e.blocker
  | none => false

/-- `TilingLayout::update_animation_state` (mod.rs:1354-1390), one tick of
one output's queue at instant `now`.  If an animation is running and the
elapsed time has reached the pending entry's duration, the stale front
entry is dropped, the new front's blocker cleared and the timer reset,
then promotion of the (new) pending entry is attempted; if an animation is
still running, nothing happens (`continue`); otherwise promotion of the
pending entry is attempted.  (The `pending_blockers` draining and the
returned client map, mod.rs:1355-1358, are protocol I/O with no effect on
the queue.)  The `(q.trees.get? 1).elim 0` models the
`expect("Animation going without second tree?")` panic, unreachable under
the invariant `hinv` below. -/
def TilingLayout.update_animation_state (now : Nat) (q : TreeQueue) : TreeQueue :=
  match q.animation_start with
  | some start =>
    if ((q.trees.get? 1).elim 0 fun e => e.duration) ≤ now - start then
      try_promote now { trees := clear_front_blocker q.trees.tail, animation_start := none }
    else q
  | none => try_promote now q

/-- **C8** — the tick semantics of the snapshot queue:
1. promotion gating: whenever a tick sets the animation timer, either it
   was already running, or the pending entry's blocker was absent or ready
   and signaled;
2. immediate promotion: with no animation running, the timer is started
   this tick exactly when a pending entry exists whose blocker is absent
   or ready-and-signaled (in particular a blocker-free pending snapshot is
   promoted immediately);
3. expiry: once the elapsed time reaches the pending entry's declared
   duration, the stale front entry is dropped (the queue becomes its tail,
   with the new front's blocker cleared) and the tick continues with the
   promotion step on the shortened queue; before that instant the tick
   changes nothing. -/
theorem update_animation_state_gating :
    (∀ (now : Nat) (q : TreeQueue),
      (try_promote now q).animation_start = some now →
      q.animation_start = some now ∨ second_promotable q.trees = true) ∧
    (∀ (now : Nat) (q : TreeQueue), q.animation_start = none →
      ((TilingLayout.update_animation_state now q).animation_start = some now ↔
        second_promotable q.trees = true)) ∧
    (∀ (now start : Nat) (q : TreeQueue) (e : QueueEntry),
      q.animation_start = some start → q.trees.get? 1 = some e →
      (e.duration ≤ now - start →
        TilingLayout.update_animation_state now q =
          try_promote now
            { trees := clear_front_blocker q.trees.tail, animation_start := none }) ∧
      (¬ e.duration ≤ now - start →
        TilingLayout.update_animation_state now q = q)) := by
  have hpromote : ∀ (now : Nat) (q : TreeQueue), q.animation_start = none →
      ((try_promote now q).animation_start = some now ↔
        second_promotable q.trees = true) := by
    intro now q hq
    rw [try_promote, second_promotable]
    cases hget : q.trees.get? 1 with
    | none => simp only [hget]; simp [hq]
    | some e =>
      simp only [hget]
      cases hb : e.blocker with
      | none => simp [hb, blocker_passes]
      | some b =>
        simp only [hb, blocker_passes]
        split_ifs with hrs
        · simp [hrs]
        · simp [hq, hrs]
  refine ⟨?_, ?_, ?_⟩
  · intro now q hset
    rw [try_promote] at hset
    cases hget : q.trees.get? 1 with
    | none =>
      simp only [hget] at hset
      exact Or.inl hset
    | some e =>
      simp only [hget] at hset
      cases hb : e.blocker with
      | none =>
        refine Or.inr ?_
        rw [second_promotable]
        simp only [hget, hb]
        rfl
      | some b =>
        simp only [hb] at hset
        by_cases hrs : (b.ready && b.signaled) = true
        · refine Or.inr ?_
          rw [second_promotable]
          simp only [hget, hb]
          exact hrs
        · rw [if_neg hrs] at hset
          exact Or.inl hset
  · intro now q hq
    rw [TilingLayout.update_animation_state, hq]
    exact hpromote now q hq
  · intro now start q e hq hget
    constructor
    · intro helapsed
      rw [TilingLayout.update_animation_state, hq, hget]
      dsimp only [Option.elim]
      rw [if_pos helapsed]
    · intro hnot
      rw [TilingLayout.update_animation_state, hq, hget]
      dsimp only [Option.elim]
      rw [if_neg hnot]

/-- Witness for `update_animation_state_gating` at a concrete queue: an
expired animation whose pending entry has a ready-and-signaled blocker. -/
theorem update_animation_state_gating_witness :
    (10 ≤ 12 - 2 →
      TilingLayout.update_animation_state 12
        ⟨[⟨0, 0, none⟩, ⟨1, 10, some ⟨true, true⟩⟩, ⟨2, 10, none⟩], some 2⟩ =
        try_promote 12
          { trees := clear_front_blocker
              ([⟨0, 0, none⟩, ⟨1, 10, some ⟨true, true⟩⟩, ⟨2, 10, none⟩] :
                List QueueEntry).tail,
            animation_start := none }) ∧
    (¬ 10 ≤ 12 - 2 →
      TilingLayout.update_animation_state 12
        ⟨[⟨0, 0, none⟩, ⟨1, 10, some ⟨true, true⟩⟩, ⟨2, 10, none⟩], some 2⟩ =
        ⟨[⟨0, 0, none⟩, ⟨1, 10, some ⟨true, true⟩⟩, ⟨2, 10, none⟩], some 2⟩) :=
  update_animation_state_gating.2.2 12 2
    ⟨[⟨0, 0, none⟩, ⟨1, 10, some ⟨true, true⟩⟩, ⟨2, 10, none⟩], some 2⟩
    ⟨1, 10, some ⟨true, true⟩⟩ rfl rfl

/-! ## Id-addressed trees (the `id_tree` crate)

`map_to_tree`, `new_group` and `merge_trees` depend on the exact semantics
of `id_tree::Tree`'s operations on stable `NodeId`s (in particular,
`InsertBehavior::AsRoot` demoting the old root to a child of the new node,
and `move_node` moving a node underneath its own descendant by first
shifting that descendant up into the node's place).  The tree is therefore
modelled as a node store: an association list from ids to nodes (data,
parent link, ordered child ids), the root id and the id counter. -/

/-- `Direction` (mod.rs:92-98): the directional hint for mapping and
moving. -/
inductive Direction where
  | left
  | right
  | up
  | down
deriving DecidableEq, Repr

structure IdNode where
  data : Data
  parent : Option Nat
  children : List Nat
deriving DecidableEq, Repr

structure IdTree where
  nodes : List (Nat × IdNode)
  root : Option Nat
  next_id : Nat
deriving DecidableEq, Repr

/-- `Tree::new()`: no nodes, no root. -/
def empty_id_tree : IdTree := ⟨[], none, 0⟩

def IdTree.get_node (t : IdTree) (i : Nat) : Option IdNode :=
  (t.nodes.find? fun e => e.1 == i).map fun e => e.2

def IdTree.modify_node (t : IdTree) (i : Nat) (f : IdNode → IdNode) : IdTree :=
  { t with nodes := t.nodes.map fun e => if e.1 == i then (e.1, f e.2) else e }

/-- Allocate the next id for a node (id_tree's slab allocation, with ids
never reused within the life of a tree in the source's usage). -/
def IdTree.insert_new_node (t : IdTree) (n : IdNode) : IdTree × Nat :=
  ({ t with nodes := t.nodes ++ [(t.next_id, n)], next_id := t.next_id + 1 }, t.next_id)

/-- id_tree's `set_as_parent_and_child`: append `c` to `p`'s children and
point `c`'s parent link at `p`. -/
def IdTree.set_as_parent_and_child (t : IdTree) (p c : Nat) : IdTree :=
  (t.modify_node p fun n => { n with children := n.children ++ [c] }).modify_node c
    fun n => { n with parent := some p }

/-- id_tree's `detach_from_parent`: remove `c` from `p`'s child list. -/
def IdTree.detach_from_parent (t : IdTree) (p c : Nat) : IdTree :=
  t.modify_node p fun n => { n with children := n.children.filter fun i => ¬ i == c }

def IdTree.clear_parent (t : IdTree) (c : Nat) : IdTree :=
  t.modify_node c fun n => { n with parent := none }

/-- `id_tree::InsertBehavior` (the two variants the source uses). -/
inductive InsertBehavior where
  | as_root
  | under_node (parent : Nat)

/-- `Tree::insert`: `AsRoot` makes the new node the root, demoting the old
root (if any) to the new node's child; `UnderNode` appends the new node to
the parent's children. -/
def IdTree.insert (t : IdTree) (n : IdNode) : InsertBehavior → IdTree × Nat
  | .as_root =>
    let r := t.insert_new_node n
    let t1 := match r.1.root with
      | some current => r.1.set_as_parent_and_child r.2 current
      | none => r.1
    ({ t1 with root := some r.2 }, r.2)
  | .under_node p =>
    let r := t.insert_new_node n
    (r.1.set_as_parent_and_child p r.2, r.2)

/-- id_tree's `find_subtree_root_between_ids`: walk up from `lower`; if the
chain of parents reaches `upper`, return the direct child of `upper` on
that chain.  The walk is bounded by the node count (parent chains of
well-formed trees are acyclic and shorter than that). -/
def IdTree.find_subtree_root_between_ids (t : IdTree) : Nat → Nat → Nat → Option Nat
  | 0, _, _ => none
  | fuel + 1, lower, upper =>
    match (t.get_node lower).bind fun n => n.parent with
    | some p =>
      if p == upper then some lower
      else t.find_subtree_root_between_ids fuel p upper
    | none => none

/-- id_tree's `Tree::move_node(node_id, MoveBehavior::ToParent(parent_id))`.
When `parent_id` is a descendant of `node_id`, the direct child of
`node_id` on the path to `parent_id` is first shifted up into `node_id`'s
place (it becomes the root when `node_id` was the root, and otherwise
replaces `node_id` among its parent's children); then `node_id` is
detached and appended under `parent_id`.  Otherwise the node is simply
detached from its old parent (if any) and appended under `parent_id`. -/
def IdTree.move_node_to_parent (t : IdTree) (node_id parent_id : Nat) : IdTree :=
  match t.find_subtree_root_between_ids t.nodes.length parent_id node_id with
  | some subtree_root_id =>
    if t.root == some node_id then
      let t1 := t.detach_from_parent node_id subtree_root_id
      let t2 := t1.clear_parent subtree_root_id
      let t3 := { t2 with root := some subtree_root_id }
      t3.set_as_parent_and_child parent_id node_id
    else
      let node_parent := ((t.get_node node_id).bind fun n => n.parent).getD 0
      let t1 := t.detach_from_parent node_id subtree_root_id
      let t2 := t1.modify_node node_parent fun n =>
        { n with children := n.children.map fun i => if i == node_id then subtree_root_id else i }
      let t3 := t2.modify_node subtree_root_id fun n => { n with parent := some node_parent }
      t3.set_as_parent_and_child parent_id node_id
  | none =>
    let t1 := match (t.get_node node_id).bind fun n => n.parent with
      | some old_parent => t.detach_from_parent old_parent node_id
      | none => t
    t1.set_as_parent_and_child parent_id node_id

/-- id_tree's `Tree::make_nth_sibling(node, pos)`: reposition `node` at
index `pos` among its parent's children.  (Errors out — modelled as a
no-op — for the root, which has no siblings; the source only calls it on
nodes with a parent.) -/
def IdTree.make_nth_sibling (t : IdTree) (node_id pos : Nat) : IdTree :=
  match (t.get_node node_id).bind fun n => n.parent with
  | none => t
  | some parent_id =>
    t.modify_node parent_id fun n =>
      { n with children := (n.children.filter fun i => ¬ i == node_id).insertIdx pos node_id }

/-- `*window.tiling_node_id.lock().unwrap() = Some(id)` — the window's
back-reference from its tree leaf; the model keeps it in the leaf's
payload (a group node is left unchanged, mirroring the
`if let Data::Mapped` guards in the source). -/
def IdTree.set_tiling_node_id (t : IdTree) (i : Nat) : IdTree :=
  t.modify_node i fun n =>
    match n.data with
    | .mapped w _ g => { n with data := .mapped w (some i) g }
    | .group _ _ _ => n

/-- `TilingLayout::new_group` (mod.rs:1579-1618): insert a fresh 2-slot
group where `old_id` was (under `old_id`'s parent, at `old_id`'s former
sibling position — or as the root), then move `old_id` and `new_id`
underneath it, in that order. -/
def TilingLayout.new_group (t : IdTree) (old_id new_id : Nat)
    (orientation : Orientation) : IdTree × Nat :=
  let new_group_node : IdNode :=
    ⟨Data.new_group orientation ⟨0, 0, 100, 100⟩, none, []⟩
  let parent_id := (t.get_node old_id).bind fun n => n.parent
  let pos := parent_id.bind fun p =>
    (t.get_node p).bind fun n => n.children.findIdx? fun i => i == old_id
  let r := t.insert new_group_node
    (match parent_id with
     | some p => .under_node p
     | none => .as_root)
  let t1 := r.1.move_node_to_parent old_id r.2
  let t2 := match pos with
    | some old_pos => t1.make_nth_sibling r.2 old_pos
    | none => t1
  let t3 := t2.move_node_to_parent new_id r.2
  (t3, r.2)

/-- The directional branch of `TilingLayout::map_to_tree`
(mod.rs:460-480): with a direction hint and an existing root, the new
window is inserted `AsRoot` (demoting the old root to its child),
`new_group` rebuilds a fresh root group over both, and `make_nth_sibling`
places the new window at index `0` for `Right`/`Down` and index `1` for
`Left`/`Up`; finally the window's back-reference is set.  Without a root
the leaf simply becomes the root.  (The direction-less branches,
mod.rs:481-524, consult the external focus stack and are not part of this
claim.) -/
def TilingLayout.map_to_tree_directional (t : IdTree) (window : Nat)
    (direction : Direction) : IdTree :=
  let new_window : IdNode :=
    ⟨.mapped window none ⟨0, 0, 100, 100⟩, none, []⟩
  match t.root with
  | some root_id =>
    let orientation := match direction with
      | .left | .right => Orientation.vertical
      | .up | .down => Orientation.horizontal
    let r := t.insert new_window .as_root
    let r2 := TilingLayout.new_group r.1 root_id r.2 orientation
    let t1 := r2.1.make_nth_sibling r.2
      (match direction with
       | .left | .up => 1
       | .right | .down => 0)
    t1.set_tiling_node_id r.2
  | none =>
    let r := t.insert new_window .as_root
    r.1.set_tiling_node_id r.2

/-- The copy loop of `merge_trees` (mod.rs:1948-1962): pop a
`(src_id, dst_id)` pair, copy each child of `src_id` under `dst_id`
(rewriting the copied leaf's back-reference to its new id) and push the
new pairs.  Fuel-bounded; for a well-formed source tree the loop runs once
per source node, so `src.nodes.length + 1` units suffice. -/
def TilingLayout.merge_trees_go (src : IdTree) :
    Nat → List (Nat × Nat) → IdTree → IdTree
  | 0, _, dst => dst
  | _ + 1, [], dst => dst
  | fuel + 1, (src_id, dst_id) :: stack, dst =>
    let step := (((src.get_node src_id).map fun n => n.children).getD []).foldl
      (fun (acc : IdTree × List (Nat × Nat)) child_id =>
        match src.get_node child_id with
        | some src_node =>
          let r := acc.1.insert ⟨src_node.data, none, []⟩ (.under_node dst_id)
          (r.1.set_tiling_node_id r.2, (child_id, r.2) :: acc.2)
        | none => acc)
      (dst, stack)
    TilingLayout.merge_trees_go src fuel step.2 step.1

/-- `TilingLayout::merge_trees` (mod.rs:1929-1966).  With a destination
root: copy the source root under it (rewriting a copied leaf's
back-reference to its new id), wrap destination root and copy in a fresh
group via `new_group`, then copy the remaining source nodes.  **With no
destination root the source tree is installed wholesale** (`*dst = src`):
no wrapper group, identities and back-references untouched. -/
def TilingLayout.merge_trees (src dst : IdTree) (orientation : Orientation) : IdTree :=
  match dst.root with
  | some dst_root_id =>
    match src.root with
    | some src_root_id =>
      match src.get_node src_root_id with
      | some root_node =>
        let r := dst.insert ⟨root_node.data, none, []⟩ (.under_node dst_root_id)
        let d1 := r.1.set_tiling_node_id r.2
        let r2 := TilingLayout.new_group d1 dst_root_id r.2 orientation
        TilingLayout.merge_trees_go src (src.nodes.length + 1) [(src_root_id, r.2)] r2.1
      | none => dst
    | none => dst
  | none => src

/-- **C2, amended** — mapping a window `wB` with a directional hint into a
tree containing only the leaf `wA` (mod.rs:460-480): a new group is
created at the tree root over the old root and the new leaf, oriented
perpendicular to the hint's axis (`Left`/`Right` → `Vertical`,
`Up`/`Down` → `Horizontal`), and `make_nth_sibling` places the new leaf at
index `0` for `Right`/`Down` and at index `1` for `Left`/`Up` — i.e. the
new leaf comes **first** for `Right`/`Down`, not last as the claim's
`[A, B]` order asserts; the window's back-reference is set to its node id.
(Node ids: `0` the old leaf `A` (window `7`), `1` the new leaf `B` (window
`9`), `2` the new root group.) -/
theorem map_to_tree_directional_result :
    (TilingLayout.map_to_tree_directional
        ⟨[(0, ⟨.mapped 7 (some 0) ⟨0, 0, 800, 600⟩, none, []⟩)], some 0, 1⟩ 9 .right =
      ⟨[(0, ⟨.mapped 7 (some 0) ⟨0, 0, 800, 600⟩, some 2, []⟩),
        (1, ⟨.mapped 9 (some 1) ⟨0, 0, 100, 100⟩, some 2, []⟩),
        (2, ⟨Data.new_group .vertical ⟨0, 0, 100, 100⟩, none, [1, 0]⟩)], some 2, 3⟩) ∧
    (TilingLayout.map_to_tree_directional
        ⟨[(0, ⟨.mapped 7 (some 0) ⟨0, 0, 800, 600⟩, none, []⟩)], some 0, 1⟩ 9 .down =
      ⟨[(0, ⟨.mapped 7 (some 0) ⟨0, 0, 800, 600⟩, some 2, []⟩),
        (1, ⟨.mapped 9 (some 1) ⟨0, 0, 100, 100⟩, some 2, []⟩),
        (2, ⟨Data.new_group .horizontal ⟨0, 0, 100, 100⟩, none, [1, 0]⟩)], some 2, 3⟩) ∧
    (TilingLayout.map_to_tree_directional
        ⟨[(0, ⟨.mapped 7 (some 0) ⟨0, 0, 800, 600⟩, none, []⟩)], some 0, 1⟩ 9 .left =
      ⟨[(0, ⟨.mapped 7 (some 0) ⟨0, 0, 800, 600⟩, some 2, []⟩),
        (1, ⟨.mapped 9 (some 1) ⟨0, 0, 100, 100⟩, some 2, []⟩),
        (2, ⟨Data.new_group .vertical ⟨0, 0, 100, 100⟩, none, [0, 1]⟩)], some 2, 3⟩) ∧
    (TilingLayout.map_to_tree_directional
        ⟨[(0, ⟨.mapped 7 (some 0) ⟨0, 0, 800, 600⟩, none, []⟩)], some 0, 1⟩ 9 .up =
      ⟨[(0, ⟨.mapped 7 (some 0) ⟨0, 0, 800, 600⟩, some 2, []⟩),
        (1, ⟨.mapped 9 (some 1) ⟨0, 0, 100, 100⟩, some 2, []⟩),
        (2, ⟨Data.new_group .horizontal ⟨0, 0, 100, 100⟩, none, [0, 1]⟩)], some 2, 3⟩) := by
  refine ⟨by decide, by decide, by decide, by decide⟩

/-- **C2, counterexample** — inserting window `9` with `direction = Right`
into a tree containing only leaf `7` (node id `0`) produces a `Vertical`
root group whose children are `[1, 0]` — the **new** leaf first — and not
`[0, 1]` (old leaf `A` first, new leaf `B` second) as the claim states. -/
theorem map_to_tree_right_places_new_leaf_first :
    (((TilingLayout.map_to_tree_directional
          ⟨[(0, ⟨.mapped 7 (some 0) ⟨0, 0, 800, 600⟩, none, []⟩)], some 0, 1⟩
          9 .right).get_node 2).map fun n => n.children) = some [1, 0] ∧
    ¬ ((((TilingLayout.map_to_tree_directional
          ⟨[(0, ⟨.mapped 7 (some 0) ⟨0, 0, 800, 600⟩, none, []⟩)], some 0, 1⟩
          9 .right).get_node 2).map fun n => n.children) = some [0, 1]) ∧
    (TilingLayout.map_to_tree_directional
        ⟨[(0, ⟨.mapped 7 (some 0) ⟨0, 0, 800, 600⟩, none, []⟩)], some 0, 1⟩
        9 .right).root = some 2 ∧
    (((TilingLayout.map_to_tree_directional
          ⟨[(0, ⟨.mapped 7 (some 0) ⟨0, 0, 800, 600⟩, none, []⟩)], some 0, 1⟩
          9 .right).get_node 2).map fun n => n.data.is_group) = some true ∧
    (((TilingLayout.map_to_tree_directional
          ⟨[(0, ⟨.mapped 7 (some 0) ⟨0, 0, 800, 600⟩, none, []⟩)], some 0, 1⟩
          9 .right).get_node 1).map fun n => n.data) =
      some (.mapped 9 (some 1) ⟨0, 0, 100, 100⟩) ∧
    (((TilingLayout.map_to_tree_directional
          ⟨[(0, ⟨.mapped 7 (some 0) ⟨0, 0, 800, 600⟩, none, []⟩)], some 0, 1⟩
          9 .right).get_node 0).map fun n => n.data) =
      some (.mapped 7 (some 0) ⟨0, 0, 800, 600⟩) := by
  refine ⟨rfl, ?_, rfl, rfl, rfl, rfl⟩
  intro h
  exact absurd (Option.some.inj h) (by decide)

/-- **C10** — `TilingLayout::merge_trees` (mod.rs:1929-1966).  First
conjunct: with an empty destination (no root node) the source tree is
installed wholesale (`*dst = src`): the resulting store, root and ids are
exactly the source's, so no wrapper group is created and no back-reference
is rewritten.  Remaining conjuncts (contrast with the non-empty branch, at
a concrete single-leaf destination and source): a fresh wrapper group
becomes the root over `[old dst root, src copy]`, and the copied leaf's
back-reference **is** rewritten to its new node id (`1`) even though the
source leaf's back-reference was `0`. -/
theorem merge_trees_empty_dst_installs_src :
    (∀ (src dst : IdTree) (orientation : Orientation), dst.root = none →
      TilingLayout.merge_trees src dst orientation = src) ∧
    (TilingLayout.merge_trees
        ⟨[(0, ⟨.mapped 20 (some 0) ⟨0, 0, 1, 1⟩, none, []⟩)], some 0, 1⟩
        ⟨[(0, ⟨.mapped 10 (some 0) ⟨0, 0, 2, 2⟩, none, []⟩)], some 0, 1⟩ .vertical).root =
      some 2 ∧
    ((((TilingLayout.merge_trees
        ⟨[(0, ⟨.mapped 20 (some 0) ⟨0, 0, 1, 1⟩, none, []⟩)], some 0, 1⟩
        ⟨[(0, ⟨.mapped 10 (some 0) ⟨0, 0, 2, 2⟩, none, []⟩)], some 0, 1⟩
        .vertical).get_node 2).map fun n => (n.data.is_group, n.children)) =
      some (true, [0, 1])) ∧
    ((((TilingLayout.merge_trees
        ⟨[(0, ⟨.mapped 20 (some 0) ⟨0, 0, 1, 1⟩, none, []⟩)], some 0, 1⟩
        ⟨[(0, ⟨.mapped 10 (some 0) ⟨0, 0, 2, 2⟩, none, []⟩)], some 0, 1⟩
        .vertical).get_node 1).map fun n => n.data) =
      some (.mapped 20 (some 1) ⟨0, 0, 1, 1⟩)) := by
  refine ⟨?_, rfl, rfl, rfl⟩
  intro src dst orientation h
  rw [TilingLayout.merge_trees, h]

/-- Witness for `merge_trees_empty_dst_installs_src` at a concrete input:
merging a single-leaf tree into a fresh `Tree::new()` returns the source
tree unchanged. -/
theorem merge_trees_empty_dst_installs_src_witness :
    TilingLayout.merge_trees
      ⟨[(0, ⟨.mapped 20 (some 0) ⟨0, 0, 1, 1⟩, none, []⟩)], some 0, 1⟩
      empty_id_tree .vertical =
      ⟨[(0, ⟨.mapped 20 (some 0) ⟨0, 0, 1, 1⟩, none, []⟩)], some 0, 1⟩ :=
  merge_trees_empty_dst_installs_src.1
    ⟨[(0, ⟨.mapped 20 (some 0) ⟨0, 0, 1, 1⟩, none, []⟩)], some 0, 1⟩
    empty_id_tree .vertical rfl

/-! ## Output management (`map_output` / `unmap_output`, mod.rs:334-416) -/

/-- `OutputData` (mod.rs:60-64): the queue key — an output (abstracted to
an identifier) and its location.  The output's geometry size, consulted by
the source through `output.geometry().size` to pick the merge orientation,
is carried here as well. -/
structure OutputData where
  output : Nat
  location : Int × Int
  size : Int × Int
deriving DecidableEq, Repr

/-- The per-output state of `TilingLayout` (mod.rs:144-150) relevant to
output management: the queues (`HashMap<OutputData, TreeQueue>`, modelled
as an association list whose first entry is the one `iter_mut().next()`
yields) with each queue's snapshot trees (front = oldest; `push_tree`
appends at the back), and the single-slot standby tree.  Durations,
blockers and `pending_blockers` do not affect which trees end up where and
are omitted (`unmap_output` drains the removed queue's blockers into
`pending_blockers`, mod.rs:372-379, and the geometry solve applied to the
merged tree before pushing, mod.rs:413, rescales geometry but is not part
of this claim). -/
structure TilingLayout where
  queues : List (OutputData × List IdTree)
  standby_tree : Option IdTree

/-- `match output.geometry().size { x if x.w >= x.h => Vertical, _ =>
Horizontal }` (mod.rs:388-391, 1918-1921). -/
def output_orientation (od : OutputData) : Orientation :=
  if od.size.1 ≥ od.size.2 then .vertical else .horizontal

/-- `TilingLayout::map_output` (mod.rs:334-364): a new output gets a fresh
queue holding the reserved standby tree (taking it) or an empty tree; an
already-mapped output has its queue entry re-keyed under the new
output/location pair, contents untouched. -/
def TilingLayout.map_output (l : TilingLayout) (output : Nat) (location : Int × Int)
    (size : Int × Int) : TilingLayout :=
  match l.queues.find? fun e => e.1.output == output with
  | none =>
    { queues := l.queues ++ [(⟨output, location, size⟩, [l.standby_tree.getD empty_id_tree])],
      standby_tree := none }
  | some _ =>
    { l with
        queues := l.queues.map fun e =>
          if e.1.output == output then (⟨output, location, size⟩, e.2) else e }

/-- `TilingLayout::unmap_output` (mod.rs:366-416): remove the output's
queue and take its most recent (back-of-queue) tree; if no output remains,
park it in the standby slot; otherwise merge it (via `merge_trees`, with
the destination output's aspect-ratio orientation) into a clone of the
first remaining output's back-of-queue tree and push the result onto that
queue.  The `getLast? = none` arm models the
`expect("No tree in queue")` panic — every mapped output's queue holds at
least one tree.  (The per-window output-enter/leave notifications,
mod.rs:392-410, are protocol I/O.) -/
def TilingLayout.unmap_output (l : TilingLayout) (output : Nat) : TilingLayout :=
  match l.queues.find? fun e => e.1.output == output with
  | none => l
  | some src_entry =>
    let queues1 := l.queues.filter fun e => ¬ e.1.output == output
    match src_entry.2.getLast? with
    | none => { queues := queues1, standby_tree := l.standby_tree }
    | some src =>
      match queues1 with
      | [] => { queues := [], standby_tree := some src }
      | (dst_od, dst_trees) :: rest =>
        let dst := dst_trees.getLast?.getD empty_id_tree
        let merged := TilingLayout.merge_trees src dst (output_orientation dst_od)
        { queues := (dst_od, dst_trees ++ [merged]) :: rest,
          standby_tree := l.standby_tree }

/-- **C9, amended** — output management semantics:
1. unmapping the only output parks its back-of-queue tree in the standby
   slot;
2. unmapping an output while another remains pushes
   `merge_trees(src, dst, orientation)` onto the first remaining output's
   queue (where `src` is the unmapped output's back-of-queue tree and
   `dst` the destination's back-of-queue tree);
3. when the destination's tree is nonempty that merge produces a fresh
   wrapper group over the old destination root and the copied source root
   (shown at concrete single-leaf trees: new root id `2`, a group, with
   children `[0, 1]`) — but an empty destination tree is replaced
   wholesale, with no group (see the counterexample);
4. mapping a new output attaches the reserved standby tree, clearing the
   slot — or an empty tree when none is reserved;
5. mapping an already-mapped output only re-keys its queue entry under the
   new output/location data, leaving the queue's contents unchanged. -/
theorem output_management_semantics :
    (∀ (od : OutputData) (ts : List IdTree) (tr : IdTree) (st : Option IdTree),
      ts.getLast? = some tr →
      TilingLayout.unmap_output ⟨[(od, ts)], st⟩ od.output =
        ⟨[], some tr⟩) ∧
    (∀ (dstT srcT : IdTree) (locA locB : Int × Int) (st : Option IdTree),
      TilingLayout.unmap_output
          ⟨[(⟨0, locA, (1920, 1080)⟩, [dstT]), (⟨1, locB, (1920, 1080)⟩, [srcT])], st⟩ 1 =
        ⟨[(⟨0, locA, (1920, 1080)⟩,
            [dstT, TilingLayout.merge_trees srcT dstT .vertical])], st⟩) ∧
    ((TilingLayout.merge_trees
        ⟨[(0, ⟨.mapped 20 (some 0) ⟨0, 0, 1, 1⟩, none, []⟩)], some 0, 1⟩
        ⟨[(0, ⟨.mapped 10 (some 0) ⟨0, 0, 2, 2⟩, none, []⟩)], some 0, 1⟩ .vertical).root =
      some 2 ∧
      ((((TilingLayout.merge_trees
          ⟨[(0, ⟨.mapped 20 (some 0) ⟨0, 0, 1, 1⟩, none, []⟩)], some 0, 1⟩
          ⟨[(0, ⟨.mapped 10 (some 0) ⟨0, 0, 2, 2⟩, none, []⟩)], some 0, 1⟩
          .vertical).get_node 2).map fun n => (n.data.is_group, n.children)) =
        some (true, [0, 1]))) ∧
    (∀ (T : IdTree) (o : Nat) (loc sz : Int × Int),
      TilingLayout.map_output ⟨[], some T⟩ o loc sz = ⟨[(⟨o, loc, sz⟩, [T])], none⟩) ∧
    (∀ (o : Nat) (loc sz : Int × Int),
      TilingLayout.map_output ⟨[], none⟩ o loc sz =
        ⟨[(⟨o, loc, sz⟩, [empty_id_tree])], none⟩) ∧
    (∀ (ts : List IdTree) (loc0 loc1 sz0 sz1 : Int × Int) (st : Option IdTree),
      TilingLayout.map_output ⟨[(⟨0, loc0, sz0⟩, ts)], st⟩ 0 loc1 sz1 =
        ⟨[(⟨0, loc1, sz1⟩, ts)], st⟩) := by
  refine ⟨?_, ?_, ⟨rfl, rfl⟩, ?_, ?_, ?_⟩
  · intro od ts tr st h
    rw [TilingLayout.unmap_output]
    simp only [List.find?, beq_self_eq_true, Option.some.injEq, List.filter, h]
    simp [List.filter_cons]
  · intro dstT srcT locA locB st
    rfl
  · intro T o loc sz
    rfl
  · intro o loc sz
    rfl
  · intro ts loc0 loc1 sz0 sz1 st
    rfl

/-- **C9, counterexample** — unmapping output `1` while output `0` remains
with an **empty** tree: the merge primitive installs the source tree
wholesale (`*dst = src`), so the tree pushed onto output `0`'s queue is the
unmapped output's tree itself, whose root (node `0`) is a `Mapped` leaf —
no "new sibling group at that destination's root" is created, contradicting
the claim's description of the merge. -/
theorem unmap_output_empty_dst_no_group :
    TilingLayout.unmap_output
        ⟨[(⟨0, (0, 0), (1920, 1080)⟩, [empty_id_tree]),
          (⟨1, (1920, 0), (1920, 1080)⟩,
            [⟨[(0, ⟨.mapped 7 (some 0) ⟨0, 0, 800, 600⟩, none, []⟩)], some 0, 1⟩])],
          none⟩ 1 =
      ⟨[(⟨0, (0, 0), (1920, 1080)⟩,
          [empty_id_tree,
            ⟨[(0, ⟨.mapped 7 (some 0) ⟨0, 0, 800, 600⟩, none, []⟩)], some 0, 1⟩])],
        none⟩ ∧
    ((⟨[(0, ⟨.mapped 7 (some 0) ⟨0, 0, 800, 600⟩, none, []⟩)], some 0, 1⟩ :
        IdTree).root = some 0) ∧
    (((⟨[(0, ⟨.mapped 7 (some 0) ⟨0, 0, 800, 600⟩, none, []⟩)], some 0, 1⟩ :
        IdTree).get_node 0).map fun n => n.data.is_group) = some false := by
  refine ⟨rfl, rfl, rfl⟩

/-- Witness for `output_management_semantics` at concrete inputs. -/
theorem output_management_semantics_witness :
    TilingLayout.unmap_output
        ⟨[(⟨5, (0, 0), (100, 100)⟩, [empty_id_tree])], none⟩
        (OutputData.output ⟨5, (0, 0), (100, 100)⟩) =
      ⟨[], some empty_id_tree⟩ :=
  output_management_semantics.1 ⟨5, (0, 0), (100, 100)⟩ [empty_id_tree]
    empty_id_tree none rfl

end Tiling
